import Mathlib

/-!
# Verification of the blackjack participant engine

A shallow embedding of `src/module/classes/participant.py` (class
`participant`) from the `mc-simulation-casino` repository, together with
proofs about its deck handling, hand tracking, strategy loop and outcome
resolution.

Conventions of the embedding:
* Python integers become `Int`; monetary amounts (bets, winnings), which
  Python computes with exact decimal-friendly literals (`1.5`, division in
  the counting formula), become `ℚ`.
* The configuration module `module.settings.settings` (not part of the
  analysed sources) is abstracted as a `Settings` structure whose fields
  are the constants the code reads (`CARDS`, `VALUE`, `CARDS_COUNT`,
  `N_CARD_EACH_DECK`, `MIN_BET`).
* The random draw `np.random.choice(len(CARDS), p = prob)` is made
  deterministic by passing the chosen rank index explicitly; the sampler
  can only return an index of positive probability, which the theorems
  take as a hypothesis where it matters.
* A card's face value is a list of candidate values (`[1, 11]` for an
  ace); the Python scalar case corresponds to a singleton list.
-/

/-- The constants the participant code reads from `module.settings.settings`:
`CARDS` is abstracted to its length `nCards` (the code uses it only for
`len(settings.CARDS)` and to label drawn cards, which we label by rank
index), `VALUE` gives each rank's candidate face values, `CARDS_COUNT` the
per-rank running-count weights, `N_CARD_EACH_DECK` the number of cards per
physical deck and `MIN_BET` the minimum bet. -/
structure Settings where
  nCards : Nat
  value : List (List Int)
  cardsCount : List Int
  nCardEachDeck : ℚ
  minBet : ℚ

/-- The participant type string `ptype`: `'d'` for the dealer, `'p'` for a
player. -/
inductive PType where
  | dealer
  | player
deriving DecidableEq

/-- The mutable attributes of the Python `participant` object (strategy
tables excluded; they enter only through lookups, see `loopBody`).
Drawn cards are recorded by their rank index. -/
structure Participant where
  ptype : PType
  cards : List Nat
  possible : List Int
  value : Int
  bet : ℚ
  active : Bool
  bust : Bool
  runV : List Int
  runW : List ℚ
deriving DecidableEq

/-- `participant.reset(running)`: clears the per-round state and, when
`running` is true, also the history lists. -/
def Participant.reset (p : Participant) (running : Bool) : Participant :=
  { p with
    cards := [], possible := [0]
    value := 0, bet := 0
    active := true, bust := false
    runV := if running then [] else p.runV
    runW := if running then [] else p.runW }

/-- `participant.__init__(ptype)`: stores the type and calls
`reset(True)`. -/
def mkParticipant (pt : PType) : Participant :=
  Participant.reset
    { ptype := pt, cards := [], possible := [], value := 0, bet := 0,
      active := true, bust := false, runV := [], runW := [] } true

/-- `participant.check_bust(val1, val2)`: returns `True` when the summed
total is still allowed (at most 21, or 22 for the dealer standoff). -/
def check_bust (pt : PType) (val1 val2 : Int) : Bool :=
  let dealer_stdoff : Int := if pt = PType.dealer then 1 else 0
  if val1 + val2 ≤ 21 + dealer_stdoff then true else false

/-- The list comprehension of `participant.hit`: every sum of an existing
possible total and a candidate face value that passes `check_bust`
(the scalar-value branch is the singleton-list case). -/
def newPossible (pt : PType) (possible faceVals : List Int) : List Int :=
  possible.flatMap fun val1 =>
    (faceVals.filter fun val2 => check_bust pt val1 val2).map fun val2 => val1 + val2

/-- `np.max` on a list of integers, as used on the (nonempty) deduplicated
possible totals; `0` on the empty list, which the code never reaches. -/
def npMax (l : List Int) : Int :=
  match l with
  | [] => 0
  | x :: xs => xs.foldl max x

/-- The update `participant.hit` performs on the participant object itself
(everything except the returned deck/count pair): recompute the possible
totals, set `bust` when they vanish, deduplicate, append the drawn card,
derive `value`, and apply doubling. -/
def hitP (S : Settings) (p : Participant) (index : Nat) (double : Bool) : Participant :=
  let faceVals := S.value.getD index []
  let possible1 := newPossible p.ptype p.possible faceVals
  let bust1 := if possible1.length = 0 then true else p.bust
  let possible2 := possible1.dedup
  let value1 := if bust1 then 0 else npMax possible2
  { p with
    cards := p.cards ++ [index]
    possible := possible2
    value := value1
    bust := bust1
    bet := if double then p.bet * 2 else p.bet
    active := if double then false else p.active }

/-- `participant.hit(num_cards, count, double)` with the sampled rank
`index` made explicit: returns the updated participant together with the
tuple `(updated_num_cards, updated_count)` built from a copy of
`num_cards`. -/
def hit (S : Settings) (p : Participant) (num_cards : List Int) (count : Int)
    (index : Nat) (double : Bool) : Participant × List Int × Int :=
  (hitP S p index double,
   num_cards.set index (num_cards.getD index 0 - 1),
   count + S.cardsCount.getD index 0)

/-- `participant.hit` guarded by its only failure point: the probability
computation `num_card / sum(num_cards)` raises `ZeroDivisionError` exactly
when the total of the supplied counts is zero. -/
def hit_checked (S : Settings) (p : Participant) (num_cards : List Int) (count : Int)
    (index : Nat) (double : Bool) : Option (Participant × List Int × Int) :=
  if num_cards.sum = 0 then none else some (hit S p num_cards count index double)

/-- The probability with which `np.random.choice` selects rank `i`:
`num_cards[i] / sum(num_cards)`. -/
def drawProb (num_cards : List Int) (i : Nat) : ℚ :=
  ((num_cards.getD i 0 : Int) : ℚ) / ((num_cards.sum : Int) : ℚ)

/-- The `final_result` computation of `participant.result(dealer)`: a
sequence of overwriting checks starting from the standoff default `0`
(`-1` loss, `0` standoff, `1` win, `2` two-card blackjack). -/
def finalResult (p dealer : Participant) : Int :=
  let r0 : Int := 0
  let r1 : Int := if p.bust then -1 else if dealer.bust then 1 else r0
  let r2 : Int :=
    if p.cards.length = 2 ∧ p.value = 21 then 2
    else if p.value = 21 ∨ 5 ≤ p.cards.length then 1
    else r1
  let r3 : Int := if dealer.value = 22 then 0 else r2
  if dealer.value > p.value then -1
  else if dealer.value < p.value then 1
  else r3

/-- `participant.result(dealer)`: append the terminal hand value to `runV`
and the payout determined by `final_result` to `runW`, then reset the
per-round state. -/
def result (p dealer : Participant) : Participant :=
  let fr := finalResult p dealer
  let runV1 := p.runV ++ [p.value]
  let runW1 :=
    if fr = 0 then p.runW ++ [0]
    else if fr = -1 then p.runW ++ [-p.bet]
    else if fr = 1 then p.runW ++ [p.bet]
    else if fr = 2 then p.runW ++ [p.bet * (3 / 2)]
    else p.runW
  Participant.reset { p with runV := runV1, runW := runW1 } false

/-- `participant.set_bet(bet)`: `None` (the default) selects the minimum
bet, any other argument is stored as given. -/
def set_bet (S : Settings) (p : Participant) (bet : Option ℚ) : Participant :=
  match bet with
  | none => { p with bet := S.minBet }
  | some b => { p with bet := b }

/-- The true count of `participant.set_bet_counting`:
`count / sum(num_cards) * N_CARD_EACH_DECK * len(CARDS)`. -/
def trueCount (S : Settings) (count : Int) (num_cards : List Int) : ℚ :=
  (count : ℚ) / ((num_cards.sum : Int) : ℚ) * S.nCardEachDeck * (S.nCards : ℚ)

/-- `participant.set_bet_counting(count, num_cards)`: derive the bet from
the true count, sitting out (bet `0`) when it falls below the minimum
bet. -/
def set_bet_counting (S : Settings) (p : Participant) (count : Int)
    (num_cards : List Int) : Participant :=
  let bet_value := max ((trueCount S count num_cards - 1) * S.minBet) 0
  if bet_value < S.minBet then set_bet S p (some 0) else set_bet S p (some bet_value)

/-! ## The `play_strategy` loop

The loop state carries the last looked-up action string (initially `''`),
the participant, the threaded `(updated_num_cards, updated_count)` pair and
the number of draws made so far.  The strategy tables and the dealer's
fixed up-value are abstracted into a lookup function
`strat : Bool → Int → String` taking the softness flag
(`len(self.possible) > 1`) and the participant's current value; the
successive sampled rank indices come from the stream `draws`. -/

structure LoopState where
  act : String
  p : Participant
  deck : List Int
  cnt : Int
  k : Nat

/-- The condition of the `while` loop in `participant.play_strategy`:
`action != 'S' and not self.bust and self.active`. -/
def loopGuard (st : LoopState) : Bool :=
  !(st.act == "S") && !st.p.bust && st.p.active

/-- One body execution of the `play_strategy` loop: look the action up,
then hit (`'H'`), hit doubling (`'D'`), or do nothing. -/
def loopBody (S : Settings) (strat : Bool → Int → String) (draws : Nat → Nat)
    (st : LoopState) : LoopState :=
  let a := strat (decide (1 < st.p.possible.length)) st.p.value
  if a == "H" then
    let r := hit S st.p st.deck st.cnt (draws st.k) false
    ⟨a, r.1, r.2.1, r.2.2, st.k + 1⟩
  else if a == "D" then
    let r := hit S st.p st.deck st.cnt (draws st.k) true
    ⟨a, r.1, r.2.1, r.2.2, st.k + 1⟩
  else ⟨a, st.p, st.deck, st.cnt, st.k⟩

/-- Run up to `n` iterations of the `play_strategy` loop, stopping as soon
as the guard fails. -/
def loopIter (S : Settings) (strat : Bool → Int → String) (draws : Nat → Nat) :
    Nat → LoopState → LoopState
  | 0, st => st
  | n + 1, st =>
      if loopGuard st then loopIter S strat draws n (loopBody S strat draws st) else st

/-- `participant.play_strategy(num_cards, count, dealer)` run for at most
`fuel` loop iterations, starting from the empty action string and a copy
of the deck. -/
def play_strategy (S : Settings) (strat : Bool → Int → String) (draws : Nat → Nat)
    (fuel : Nat) (p : Participant) (num_cards : List Int) (count : Int) : LoopState :=
  loopIter S strat draws fuel ⟨"", p, num_cards, count, 0⟩

/-- `np.min` on a list of integers (used only in proofs, as the
termination measure of the loop). -/
def npMin (l : List Int) : Int :=
  match l with
  | [] => 0
  | x :: xs => xs.foldl min x

/-- Termination measure for the `play_strategy` loop: `0` once the guard
fails, otherwise a bound on the remaining iterations derived from the
smallest surviving possible total (every hit raises it by at least one and
`check_bust` caps totals at `22`). -/
def loopMeasure (st : LoopState) : Nat :=
  if loopGuard st then
    if st.p.possible = [] then 2 else 3 + (23 - npMin st.p.possible).toNat
  else 0

/-! ## A store-passing model of the Python list aliasing

Python lists are heap references; `hit` receives the caller's `num_cards`
reference, builds a fresh list with `num_cards.copy()`, decrements the
fresh list and returns it.  To state that the caller's list is never
mutated we model the heap explicitly: a store is a list of integer lists,
a reference an index into it, allocation appends. -/

abbrev Store := List (List Int)

/-- Dereference `r` in the store (the empty list for a dangling
reference, which the theorems exclude). -/
def lookupS (σ : Store) (r : Nat) : List Int :=
  σ.getD r []

/-- `participant.hit` on the store model: `num_cards.copy()` allocates a
fresh cell holding the same list, the decrement mutates only that fresh
cell, and the fresh reference is returned. -/
def hitS (S : Settings) (p : Participant) (σ : Store) (r : Nat) (count : Int)
    (index : Nat) (double : Bool) : Participant × Store × Nat × Int :=
  let σ1 := σ ++ [lookupS σ r]
  let r1 := σ.length
  let updated := (lookupS σ1 r1).set index ((lookupS σ1 r1).getD index 0 - 1)
  (hitP S p index double, σ1.set r1 updated, r1, count + S.cardsCount.getD index 0)

/-- Loop state of `play_strategy` on the store model: the deck is held by
reference. -/
structure SLoopState where
  act : String
  p : Participant
  σ : Store
  ref : Nat
  cnt : Int
  k : Nat

/-- `loopBody` on the store model. -/
def loopBodyS (S : Settings) (strat : Bool → Int → String) (draws : Nat → Nat)
    (st : SLoopState) : SLoopState :=
  let a := strat (decide (1 < st.p.possible.length)) st.p.value
  if a == "H" then
    let r := hitS S st.p st.σ st.ref st.cnt (draws st.k) false
    ⟨a, r.1, r.2.1, r.2.2.1, r.2.2.2, st.k + 1⟩
  else if a == "D" then
    let r := hitS S st.p st.σ st.ref st.cnt (draws st.k) true
    ⟨a, r.1, r.2.1, r.2.2.1, r.2.2.2, st.k + 1⟩
  else ⟨a, st.p, st.σ, st.ref, st.cnt, st.k⟩

/-- Run up to `n` iterations of the store-model loop. -/
def loopIterS (S : Settings) (strat : Bool → Int → String) (draws : Nat → Nat) :
    Nat → SLoopState → SLoopState
  | 0, st => st
  | n + 1, st =>
      if !(st.act == "S") && !st.p.bust && st.p.active then
        loopIterS S strat draws n (loopBodyS S strat draws st)
      else st

/-- `participant.play_strategy` on the store model: the initial
`updated_num_cards, updated_count = num_cards.copy(), count` allocates a
fresh copy of the caller's list and the loop threads the fresh
reference. -/
def play_strategyS (S : Settings) (strat : Bool → Int → String) (draws : Nat → Nat)
    (fuel : Nat) (p : Participant) (σ : Store) (r : Nat) (count : Int) : SLoopState :=
  loopIterS S strat draws fuel ⟨"", p, σ ++ [lookupS σ r], σ.length, count, 0⟩

/-! ## Spec-side outcome rules (for the precedence claim)

The five rules of §4.5 of the specification, each written as an override
of the result of the previous rules, composed in the spec's order. -/

/-- §4.5 rule 1: default push. -/
def rule1 : Int := 0

/-- §4.5 rule 2: participant bust is a loss, else dealer bust is a win. -/
def rule2 (p dealer : Participant) (r : Int) : Int :=
  if p.bust then -1 else if dealer.bust then 1 else r

/-- §4.5 rule 3: two-card 21 is a blackjack win, else 21 or five cards is
a win. -/
def rule3 (p : Participant) (r : Int) : Int :=
  if p.cards.length = 2 ∧ p.value = 21 then 2
  else if p.value = 21 ∨ 5 ≤ p.cards.length then 1
  else r

/-- §4.5 rule 4: dealer value 22 forces a push. -/
def rule4 (dealer : Participant) (r : Int) : Int :=
  if dealer.value = 22 then 0 else r

/-- §4.5 rule 5: the numeric comparison, leaving `r` on equality. -/
def rule5 (p dealer : Participant) (r : Int) : Int :=
  if dealer.value > p.value then -1
  else if dealer.value < p.value then 1
  else r

/-- The outcome as §4.5 describes it: the five rules evaluated in order,
later rules overriding earlier ones. -/
def specFinalResult (p dealer : Participant) : Int :=
  rule5 p dealer (rule4 dealer (rule3 p (rule2 p dealer rule1)))

/-- The payout §4.5 assigns to each outcome. -/
def specPayout (r : Int) (bet : ℚ) : ℚ :=
  if r = -1 then -bet else if r = 1 then bet else if r = 2 then bet * (3 / 2) else 0

/-- The invariant relating the `bust` flag and the possible-totals set. -/
def bustInv (p : Participant) : Prop :=
  p.bust = true ↔ p.possible = []

/-! ## Concrete states used to evaluate the code at specific inputs -/

/-- A small concrete configuration: two ranks (an ace `[1, 11]` and a
two), unit count weights, 52 cards per deck, minimum bet 10. -/
def S0 : Settings :=
  { nCards := 13, value := [[1, 11], [2]], cardsCount := [1, 1],
    nCardEachDeck := 52, minBet := 10 }

/-- A freshly constructed player. -/
def p0 : Participant := mkParticipant PType.player

/-- A player standing on a two-card 20, bet 1. -/
def p20 : Participant :=
  { ptype := PType.player, cards := [0, 1], possible := [20], value := 20,
    bet := 1, active := true, bust := false, runV := [], runW := [] }

/-- A player holding a two-card blackjack (ace and ten), bet 1. -/
def pBJ : Participant :=
  { ptype := PType.player, cards := [0, 9], possible := [11, 21], value := 21,
    bet := 1, active := true, bust := false, runV := [], runW := [] }

/-- A player holding five cards totaling 15, bet 1. -/
def p5c : Participant :=
  { ptype := PType.player, cards := [0, 1, 2, 3, 4], possible := [15], value := 15,
    bet := 1, active := true, bust := false, runV := [], runW := [] }

/-- A dealer standing on 20. -/
def d20 : Participant :=
  { ptype := PType.dealer, cards := [7, 9], possible := [20], value := 20,
    bet := 0, active := true, bust := false, runV := [], runW := [] }

/-- A dealer on the standoff total 22 (three cards, not flagged bust). -/
def d22 : Participant :=
  { ptype := PType.dealer, cards := [5, 5, 9], possible := [22], value := 22,
    bet := 0, active := true, bust := false, runV := [], runW := [] }

/-- A dealer standing on 10. -/
def d10 : Participant :=
  { ptype := PType.dealer, cards := [8], possible := [10], value := 10,
    bet := 0, active := true, bust := false, runV := [], runW := [] }

/-! ## Helper lemmas -/

lemma foldl_max_mem (xs : List Int) : ∀ x : Int, xs.foldl max x ∈ x :: xs := by
  induction xs with
  | nil => intro x; simp
  | cons y ys ih =>
      intro x
      rw [List.foldl_cons]
      rcases List.mem_cons.mp (ih (max x y)) with h1 | h1
      · rw [h1]
        rcases max_choice x y with hm | hm <;> rw [hm] <;> simp
      · exact List.mem_cons.mpr (Or.inr (List.mem_cons.mpr (Or.inr h1)))

lemma le_foldl_max (xs : List Int) : ∀ x : Int, ∀ a ∈ x :: xs, a ≤ xs.foldl max x := by
  induction xs with
  | nil =>
      intro x a ha
      rw [List.mem_singleton] at ha
      simp [ha]
  | cons y ys ih =>
      intro x a ha
      rw [List.foldl_cons]
      rcases List.mem_cons.mp ha with h1 | h1
      · subst h1
        exact le_trans (le_max_left _ _) (ih (max a y) (max a y) (List.mem_cons_self _ _))
      · rcases List.mem_cons.mp h1 with h2 | h2
        · subst h2
          exact le_trans (le_max_right _ _) (ih (max x a) (max x a) (List.mem_cons_self _ _))
        · exact ih (max x y) a (List.mem_cons.mpr (Or.inr h2))

lemma foldl_min_mem (xs : List Int) : ∀ x : Int, xs.foldl min x ∈ x :: xs := by
  induction xs with
  | nil => intro x; simp
  | cons y ys ih =>
      intro x
      rw [List.foldl_cons]
      rcases List.mem_cons.mp (ih (min x y)) with h1 | h1
      · rw [h1]
        rcases min_choice x y with hm | hm <;> rw [hm] <;> simp
      · exact List.mem_cons.mpr (Or.inr (List.mem_cons.mpr (Or.inr h1)))

lemma foldl_min_le (xs : List Int) : ∀ x : Int, ∀ a ∈ x :: xs, xs.foldl min x ≤ a := by
  induction xs with
  | nil =>
      intro x a ha
      rw [List.mem_singleton] at ha
      simp [ha]
  | cons y ys ih =>
      intro x a ha
      rw [List.foldl_cons]
      rcases List.mem_cons.mp ha with h1 | h1
      · subst h1
        exact le_trans (ih (min a y) (min a y) (List.mem_cons_self _ _)) (min_le_left _ _)
      · rcases List.mem_cons.mp h1 with h2 | h2
        · subst h2
          exact le_trans (ih (min x a) (min x a) (List.mem_cons_self _ _)) (min_le_right _ _)
        · exact ih (min x y) a (List.mem_cons.mpr (Or.inr h2))

lemma npMax_mem {l : List Int} (h : l ≠ []) : npMax l ∈ l := by
  cases l with
  | nil => exact absurd rfl h
  | cons x xs => exact foldl_max_mem xs x

lemma le_npMax {l : List Int} {a : Int} (ha : a ∈ l) : a ≤ npMax l := by
  cases l with
  | nil => exact absurd ha (List.not_mem_nil a)
  | cons x xs => exact le_foldl_max xs x a ha

lemma npMin_mem {l : List Int} (h : l ≠ []) : npMin l ∈ l := by
  cases l with
  | nil => exact absurd rfl h
  | cons x xs => exact foldl_min_mem xs x

lemma npMin_le {l : List Int} {a : Int} (ha : a ∈ l) : npMin l ≤ a := by
  cases l with
  | nil => exact absurd ha (List.not_mem_nil a)
  | cons x xs => exact foldl_min_le xs x a ha

lemma check_bust_iff {pt : PType} {v1 v2 : Int} :
    check_bust pt v1 v2 = true ↔ v1 + v2 ≤ 21 + (if pt = PType.dealer then 1 else 0) := by
  by_cases h : v1 + v2 ≤ 21 + (if pt = PType.dealer then (1 : Int) else 0) <;>
    simp [check_bust, h]

lemma mem_newPossible {pt : PType} {possible faceVals : List Int} {t : Int} :
    t ∈ newPossible pt possible faceVals ↔
      ∃ v1 ∈ possible, ∃ v2 ∈ faceVals, check_bust pt v1 v2 = true ∧ t = v1 + v2 := by
  unfold newPossible
  simp only [List.mem_flatMap, List.mem_map, List.mem_filter]
  constructor
  · rintro ⟨v1, h1, v2, ⟨h2, hc⟩, rfl⟩
    exact ⟨v1, h1, v2, h2, hc, rfl⟩
  · rintro ⟨v1, h1, v2, h2, hc, rfl⟩
    exact ⟨v1, h1, v2, ⟨h2, hc⟩, rfl⟩

lemma newPossible_nil {pt : PType} {faceVals : List Int} :
    newPossible pt [] faceVals = [] := rfl

lemma sum_set_getD_sub_one :
    ∀ (l : List Int) (i : Nat), i < l.length →
      (l.set i (l.getD i 0 - 1)).sum = l.sum - 1 := by
  intro l
  induction l with
  | nil => intro i hi; simp at hi
  | cons x xs ih =>
      intro i hi
      cases i with
      | zero =>
          simp only [List.set_cons_zero, List.getD_cons_zero, List.sum_cons]
          ring
      | succ n =>
          have hn : n < xs.length := by simpa using hi
          simp only [List.set_cons_succ, List.getD_cons_succ, List.sum_cons]
          rw [ih n hn]
          ring

lemma mem_set_nonneg {l : List Int} {i : Nat} (hnn : ∀ c ∈ l, 0 ≤ c)
    (hpos : 0 < l.getD i 0) : ∀ c ∈ l.set i (l.getD i 0 - 1), 0 ≤ c := by
  intro c hc
  rcases List.mem_or_eq_of_mem_set hc with h | h
  · exact hnn c h
  · omega

lemma hit_fst (S : Settings) (p : Participant) (nc : List Int) (cnt : Int)
    (i : Nat) (dbl : Bool) : (hit S p nc cnt i dbl).1 = hitP S p i dbl := rfl

lemma hit_deck (S : Settings) (p : Participant) (nc : List Int) (cnt : Int)
    (i : Nat) (dbl : Bool) :
    (hit S p nc cnt i dbl).2.1 = nc.set i (nc.getD i 0 - 1) := rfl

lemma hit_cnt (S : Settings) (p : Participant) (nc : List Int) (cnt : Int)
    (i : Nat) (dbl : Bool) :
    (hit S p nc cnt i dbl).2.2 = cnt + S.cardsCount.getD i 0 := rfl

lemma hitP_possible (S : Settings) (p : Participant) (i : Nat) (dbl : Bool) :
    (hitP S p i dbl).possible =
      (newPossible p.ptype p.possible (S.value.getD i [])).dedup := rfl

lemma hitP_bust (S : Settings) (p : Participant) (i : Nat) (dbl : Bool) :
    (hitP S p i dbl).bust =
      if (newPossible p.ptype p.possible (S.value.getD i [])).length = 0 then true
      else p.bust := rfl

lemma hitP_value (S : Settings) (p : Participant) (i : Nat) (dbl : Bool) :
    (hitP S p i dbl).value =
      if (hitP S p i dbl).bust then 0
      else npMax (newPossible p.ptype p.possible (S.value.getD i [])).dedup := rfl

lemma hitP_active (S : Settings) (p : Participant) (i : Nat) (dbl : Bool) :
    (hitP S p i dbl).active = if dbl then false else p.active := rfl

/-! ## Claim theorems -/

/-- C5: for every deck state with nonnegative per-rank counts and positive
total, a `hit` on a drawable rank (positive count, hence positive draw
probability) returns counts whose sum is exactly one less than the input
sum, with no count negative; a rank with count `0` has draw probability
`0`, so it is never the decremented rank. -/
theorem hit_deck_conservation (S : Settings) (p : Participant) (num_cards : List Int)
    (count : Int) (index : Nat) (double : Bool)
    (hnn : ∀ c ∈ num_cards, 0 ≤ c) (hpos : 0 < num_cards.sum)
    (hlt : index < num_cards.length) (hsel : 0 < num_cards.getD index 0) :
    (hit S p num_cards count index double).2.1.sum = num_cards.sum - 1 ∧
    (∀ c ∈ (hit S p num_cards count index double).2.1, 0 ≤ c) ∧
    (∀ j, num_cards.getD j 0 = 0 → drawProb num_cards j = 0) := by
  refine ⟨?_, ?_, ?_⟩
  · rw [hit_deck]
    exact sum_set_getD_sub_one num_cards index hlt
  · rw [hit_deck]
    exact mem_set_nonneg hnn hsel
  · intro j hj
    unfold drawProb
    rw [hj]
    simp

/-- Witness for `hit_deck_conservation` at a concrete drawable deck. -/
theorem hit_deck_conservation_witness :
    (hit S0 p0 [2, 3] 7 0 false).2.1.sum = ([2, 3] : List Int).sum - 1 ∧
    (∀ c ∈ (hit S0 p0 [2, 3] 7 0 false).2.1, 0 ≤ c) ∧
    (∀ j, ([2, 3] : List Int).getD j 0 = 0 → drawProb [2, 3] j = 0) :=
  hit_deck_conservation S0 p0 [2, 3] 7 0 false (by decide) (by decide) (by decide)
    (by decide)

/-- C9: `hit` fails exactly when the supplied counts sum to zero (the
probability computation divides by that sum), and under the
deck-sufficiency precondition it completes, returning the updated pair. -/
theorem hit_checked_empty_deck (S : Settings) (p : Participant) (num_cards : List Int)
    (count : Int) (index : Nat) (double : Bool)
    (hnn : ∀ c ∈ num_cards, 0 ≤ c) (hpos : 0 < num_cards.sum) :
    hit_checked S p num_cards count index double =
      some (hit S p num_cards count index double) ∧
    (∀ nc : List Int,
      (hit_checked S p nc count index double = none ↔ nc.sum = 0)) := by
  constructor
  · unfold hit_checked
    rw [if_neg (by omega)]
  · intro nc
    unfold hit_checked
    split <;> simp_all

/-- Witness for `hit_checked_empty_deck` at a concrete nonempty deck. -/
theorem hit_checked_empty_deck_witness :
    hit_checked S0 p0 [2, 3] 7 0 false = some (hit S0 p0 [2, 3] 7 0 false) ∧
    (∀ nc : List Int,
      (hit_checked S0 p0 nc 7 0 false = none ↔ nc.sum = 0)) :=
  hit_checked_empty_deck S0 p0 [2, 3] 7 0 false (by decide) (by decide)

/-- C7: `set_bet_counting` stores `betValue = max((trueCount - 1) * minBet, 0)`
when `betValue` is at least the minimum bet and `0` otherwise, and with
running count 8, 100 remaining cards, 52 cards per deck and 13 ranks the
true count is `8 / 100 * 52 * 13 = 54.08 = 1352/25`. -/
theorem set_bet_counting_policy (S : Settings) (p : Participant) (count : Int)
    (num_cards : List Int) (hne : num_cards ≠ []) (hpos : 0 < num_cards.sum) :
    (set_bet_counting S p count num_cards).bet =
      (if S.minBet ≤ max ((trueCount S count num_cards - 1) * S.minBet) 0
       then max ((trueCount S count num_cards - 1) * S.minBet) 0 else 0) ∧
    (S.nCards = 13 → S.nCardEachDeck = 52 → num_cards.sum = 100 →
      trueCount S 8 num_cards = 1352 / 25) := by
  constructor
  · simp only [set_bet_counting]
    by_cases h : max ((trueCount S count num_cards - 1) * S.minBet) 0 < S.minBet
    · rw [if_pos h, if_neg (not_le.mpr h)]
      rfl
    · rw [if_neg h, if_pos (not_lt.mp h)]
      rfl
  · intro h13 h52 h100
    unfold trueCount
    rw [h13, h52, h100]
    norm_num

/-- Witness for `set_bet_counting_policy` at the spec scenario's numbers. -/
theorem set_bet_counting_policy_witness :
    (set_bet_counting S0 p0 8 [100]).bet =
      (if S0.minBet ≤ max ((trueCount S0 8 [100] - 1) * S0.minBet) 0
       then max ((trueCount S0 8 [100] - 1) * S0.minBet) 0 else 0) ∧
    (S0.nCards = 13 → S0.nCardEachDeck = 52 → ([100] : List Int).sum = 100 →
      trueCount S0 8 [100] = 1352 / 25) :=
  set_bet_counting_policy S0 p0 8 [100] (by decide) (by decide)

/-- C1 (failing input): the dealer total 22 does pass `check_bust` with
the dealer role, but `result` against a non-bust player on 20 with bet 1
records `-1` (a loss), not the claimed push `0`: the final comparison
`dealer.value > self.value` overrides the standoff assignment. -/
theorem dealer22_standoff_eval :
    check_bust PType.dealer 11 11 = true ∧
    d22.bust = false ∧
    (result p20 d22).runW = [(-1 : ℚ)] := by
  refine ⟨by decide, by decide, by decide⟩

/-- C2 (failing input): a two-card 21 with bet 1 against a dealer 20
records payout `1`, not the claimed `1.5`: the comparison
`dealer.value < self.value` overrides the blackjack result. -/
theorem blackjack_vs_twenty_eval :
    (result pBJ d20).runW = [(1 : ℚ)] ∧ (1 : ℚ) ≠ 3 / 2 := by
  refine ⟨by decide, by norm_num⟩

/-- C3 (counterexample): a non-bust five-card 15 with bet 1 against a
dealer 20 records `-1`, not the claimed forced win `+1`. -/
theorem five_card_counterexample :
    (result p5c d20).runW = [(-1 : ℚ)] ∧ (result p5c d20).runW ≠ [(1 : ℚ)] := by
  refine ⟨by decide, by decide⟩

lemma finalResult_cases (p dealer : Participant) :
    finalResult p dealer = -1 ∨ finalResult p dealer = 0 ∨
    finalResult p dealer = 1 ∨ finalResult p dealer = 2 := by
  unfold finalResult
  split_ifs <;> norm_num

lemma result_runW (p dealer : Participant) :
    (result p dealer).runW = p.runW ++ [specPayout (finalResult p dealer) p.bet] := by
  rcases finalResult_cases p dealer with h | h | h | h <;>
    simp [result, h, specPayout, Participant.reset]

/-- C4: the outcome of `result` is exactly the five §4.5 rules evaluated
in their stated order, later matching rules overwriting earlier ones
(default push; bust checks; blackjack / 21-or-5-cards; dealer 22; numeric
comparison with equality leaving the prior result), and the recorded
payout is the one §4.5 assigns to that outcome. -/
theorem result_precedence_order (p dealer : Participant) :
    finalResult p dealer = specFinalResult p dealer ∧
    (result p dealer).runW = p.runW ++ [specPayout (specFinalResult p dealer) p.bet] := by
  have h : finalResult p dealer = specFinalResult p dealer := rfl
  exact ⟨h, h ▸ result_runW p dealer⟩

/-- C3 (amended): a non-bust participant holding five or more cards
totaling at most 21 records `+bet` exactly when the dealer's value does
not exceed the participant's (ties included), and `-bet` otherwise — not
a win regardless of the dealer's total. -/
theorem five_card_overridden (p dealer : Participant)
    (hb : p.bust = false) (hc : 5 ≤ p.cards.length) (hv : p.value ≤ 21) :
    (result p dealer).runW =
      p.runW ++ [if dealer.value ≤ p.value then p.bet else -p.bet] := by
  have hfr : finalResult p dealer = if dealer.value ≤ p.value then 1 else -1 := by
    unfold finalResult
    rw [hb]
    dsimp only
    split_ifs <;> omega
  rw [result_runW p dealer, hfr]
  by_cases hdp : dealer.value ≤ p.value
  · rw [if_pos hdp, if_pos hdp]
    simp [specPayout]
  · rw [if_neg hdp, if_neg hdp]
    simp [specPayout]

/-- Witness for `five_card_overridden`: the five-card 15 against a dealer
10 does record a win. -/
theorem five_card_overridden_witness :
    (result p5c d10).runW =
      p5c.runW ++ [if d10.value ≤ p5c.value then p5c.bet else -p5c.bet] :=
  five_card_overridden p5c d10 (by decide) (by decide) (by decide)

/-- C6: the bust flag is set exactly when the possible-totals set is
empty — after construction, after `reset`, and preserved by every `hit` —
where `hit` keeps a candidate total `T` iff `T ≤ 21 + 1` for the dealer
role and `T ≤ 21` otherwise (the `check_bust` predicate), and sets `value`
to the maximum surviving total, or `0` when bust. -/
theorem bust_flag_iff_no_totals (S : Settings) (p : Participant) (nc : List Int)
    (cnt : Int) (i : Nat) (dbl : Bool) (pt : PType) (r : Bool) (v1 v2 : Int)
    (hinv : bustInv p) :
    bustInv (mkParticipant pt) ∧
    bustInv (p.reset r) ∧
    (check_bust pt v1 v2 = true ↔ v1 + v2 ≤ 21 + (if pt = PType.dealer then 1 else 0)) ∧
    bustInv (hit S p nc cnt i dbl).1 ∧
    (∀ t, t ∈ (hit S p nc cnt i dbl).1.possible ↔
      ∃ w1 ∈ p.possible, ∃ w2 ∈ S.value.getD i [],
        t = w1 + w2 ∧ t ≤ 21 + (if p.ptype = PType.dealer then 1 else 0)) ∧
    ((hit S p nc cnt i dbl).1.bust = true → (hit S p nc cnt i dbl).1.value = 0) ∧
    ((hit S p nc cnt i dbl).1.bust = false →
      (hit S p nc cnt i dbl).1.value ∈ (hit S p nc cnt i dbl).1.possible ∧
      ∀ t ∈ (hit S p nc cnt i dbl).1.possible, t ≤ (hit S p nc cnt i dbl).1.value) := by
  rw [hit_fst]
  set P1 := newPossible p.ptype p.possible (S.value.getD i []) with hP1
  have hposs : (hitP S p i dbl).possible = P1.dedup := hitP_possible S p i dbl
  have hbust : (hitP S p i dbl).bust = if P1.length = 0 then true else p.bust :=
    hitP_bust S p i dbl
  refine ⟨?_, ?_, check_bust_iff, ?_, ?_, ?_, ?_⟩
  · simp [bustInv, mkParticipant, Participant.reset]
  · simp [bustInv, Participant.reset]
  · unfold bustInv
    rw [hposs, hbust]
    by_cases hemp : P1.length = 0
    · rw [if_pos hemp, List.length_eq_zero.mp hemp]
      simp
    · rw [if_neg hemp]
      have hne : P1 ≠ [] := fun h => hemp (by rw [h]; rfl)
      have hdne : P1.dedup ≠ [] := by rwa [ne_eq, List.dedup_eq_nil]
      constructor
      · intro hpb
        exact (hne (by rw [hP1, hinv.mp hpb]; rfl)).elim
      · intro h
        exact (hdne h).elim
  · intro t
    rw [hposs, List.mem_dedup, hP1, mem_newPossible]
    constructor
    · rintro ⟨w1, h1, w2, h2, hc, rfl⟩
      exact ⟨w1, h1, w2, h2, rfl, check_bust_iff.mp hc⟩
    · rintro ⟨w1, h1, w2, h2, rfl, hle⟩
      exact ⟨w1, h1, w2, h2, check_bust_iff.mpr hle, rfl⟩
  · intro hb
    rw [hitP_value, hb]
    rfl
  · intro hb
    have hne : P1.length ≠ 0 ∧ p.bust = false := by
      rw [hbust] at hb
      by_cases h : P1.length = 0
      · rw [if_pos h] at hb
        exact absurd hb (by simp)
      · exact ⟨h, by rwa [if_neg h] at hb⟩
    have hdne : P1.dedup ≠ [] := by
      rw [ne_eq, List.dedup_eq_nil]
      exact fun h => hne.1 (by rw [h]; rfl)
    constructor
    · rw [hitP_value, hb, if_neg (by simp), hposs]
      exact npMax_mem hdne
    · intro t ht
      rw [hposs] at ht
      rw [hitP_value, hb, if_neg (by simp)]
      exact le_npMax ht

/-- Witness for `bust_flag_iff_no_totals` at a concrete non-bust player. -/
theorem bust_flag_iff_no_totals_witness :
    bustInv (mkParticipant PType.dealer) ∧
    bustInv (p20.reset true) ∧
    (check_bust PType.dealer 11 11 = true ↔
      (11 : Int) + 11 ≤ 21 + (if PType.dealer = PType.dealer then 1 else 0)) ∧
    bustInv (hit S0 p20 [2, 3] 0 1 false).1 ∧
    (∀ t, t ∈ (hit S0 p20 [2, 3] 0 1 false).1.possible ↔
      ∃ w1 ∈ p20.possible, ∃ w2 ∈ S0.value.getD 1 [],
        t = w1 + w2 ∧ t ≤ 21 + (if p20.ptype = PType.dealer then 1 else 0)) ∧
    ((hit S0 p20 [2, 3] 0 1 false).1.bust = true →
      (hit S0 p20 [2, 3] 0 1 false).1.value = 0) ∧
    ((hit S0 p20 [2, 3] 0 1 false).1.bust = false →
      (hit S0 p20 [2, 3] 0 1 false).1.value ∈ (hit S0 p20 [2, 3] 0 1 false).1.possible ∧
      ∀ t ∈ (hit S0 p20 [2, 3] 0 1 false).1.possible,
        t ≤ (hit S0 p20 [2, 3] 0 1 false).1.value) :=
  bust_flag_iff_no_totals S0 p20 [2, 3] 0 1 false PType.dealer true 11 11
    (by simp [bustInv, p20])

lemma getD_faces {S : Settings} (hfv : ∀ vs ∈ S.value, ∀ v ∈ vs, 1 ≤ v) (i : Nat) :
    ∀ v ∈ S.value.getD i [], 1 ≤ v := by
  intro v hv
  rcases lt_or_le i S.value.length with h | h
  · rw [List.getD_eq_getElem?_getD, List.getElem?_eq_getElem h, Option.getD_some] at hv
    exact hfv _ (List.getElem_mem h) v hv
  · rw [List.getD_eq_getElem?_getD, List.getElem?_eq_none h] at hv
    simp at hv

lemma loopBody_S {S : Settings} {strat : Bool → Int → String} {draws : Nat → Nat}
    {st : LoopState}
    (ha : strat (decide (1 < st.p.possible.length)) st.p.value = "S") :
    loopBody S strat draws st = ⟨"S", st.p, st.deck, st.cnt, st.k⟩ := by
  unfold loopBody
  rw [ha]
  rfl

lemma loopBody_H {S : Settings} {strat : Bool → Int → String} {draws : Nat → Nat}
    {st : LoopState}
    (ha : strat (decide (1 < st.p.possible.length)) st.p.value = "H") :
    loopBody S strat draws st =
      ⟨"H", hitP S st.p (draws st.k) false,
        st.deck.set (draws st.k) (st.deck.getD (draws st.k) 0 - 1),
        st.cnt + S.cardsCount.getD (draws st.k) 0, st.k + 1⟩ := by
  unfold loopBody
  rw [ha]
  rfl

lemma loopBody_D {S : Settings} {strat : Bool → Int → String} {draws : Nat → Nat}
    {st : LoopState}
    (ha : strat (decide (1 < st.p.possible.length)) st.p.value = "D") :
    loopBody S strat draws st =
      ⟨"D", hitP S st.p (draws st.k) true,
        st.deck.set (draws st.k) (st.deck.getD (draws st.k) 0 - 1),
        st.cnt + S.cardsCount.getD (draws st.k) 0, st.k + 1⟩ := by
  unfold loopBody
  rw [ha]
  rfl

lemma loopMeasure_pos {st : LoopState} (hg : loopGuard st = true) :
    2 ≤ loopMeasure st := by
  unfold loopMeasure
  rw [hg, if_pos rfl]
  split <;> omega

lemma loopMeasure_guard_false {st : LoopState} (hg : loopGuard st = false) :
    loopMeasure st = 0 := by
  unfold loopMeasure
  rw [hg]
  rfl

lemma loopMeasure_decreases (S : Settings) (strat : Bool → Int → String)
    (draws : Nat → Nat)
    (hs : ∀ b v, strat b v = "H" ∨ strat b v = "S" ∨ strat b v = "D")
    (hfv : ∀ vs ∈ S.value, ∀ v ∈ vs, 1 ≤ v)
    (st : LoopState) (hg : loopGuard st = true) :
    loopMeasure (loopBody S strat draws st) < loopMeasure st := by
  have h2 := loopMeasure_pos hg
  rcases Bool.eq_false_or_eq_true (loopGuard (loopBody S strat draws st)) with hgb | hgb
  swap
  · rw [loopMeasure_guard_false hgb]
    omega
  · rcases hs (decide (1 < st.p.possible.length)) st.p.value with ha | ha | ha
    · -- a hit was performed and the hand survived: the smallest possible
      -- total grew by at least 1 while staying at most 22
      rw [loopBody_H ha] at hgb ⊢
      have hbust' : (hitP S st.p (draws st.k) false).bust = false := by
        simp only [loopGuard, Bool.and_eq_true, Bool.not_eq_true'] at hgb
        exact hgb.1.2
      have hP1len :
          (newPossible st.p.ptype st.p.possible (S.value.getD (draws st.k) [])).length ≠ 0 := by
        intro h0
        rw [hitP_bust, if_pos h0] at hbust'
        exact absurd hbust' (by simp)
      have hP1ne :
          newPossible st.p.ptype st.p.possible (S.value.getD (draws st.k) []) ≠ [] :=
        fun h => hP1len (by rw [h]; rfl)
      have hpne : st.p.possible ≠ [] := by
        intro h
        exact hP1ne (by rw [h, newPossible_nil])
      have hdne :
          (newPossible st.p.ptype st.p.possible (S.value.getD (draws st.k) [])).dedup ≠ [] := by
        rwa [ne_eq, List.dedup_eq_nil]
      have hpne' : (hitP S st.p (draws st.k) false).possible ≠ [] := by
        rw [hitP_possible]
        exact hdne
      have hmst : loopMeasure st = 3 + (23 - npMin st.p.possible).toNat := by
        unfold loopMeasure
        rw [hg, if_pos rfl, if_neg hpne]
      have hmb :
          loopMeasure ⟨"H", hitP S st.p (draws st.k) false,
            st.deck.set (draws st.k) (st.deck.getD (draws st.k) 0 - 1),
            st.cnt + S.cardsCount.getD (draws st.k) 0, st.k + 1⟩ =
          3 + (23 - npMin (hitP S st.p (draws st.k) false).possible).toNat := by
        unfold loopMeasure
        rw [hgb, if_pos rfl, if_neg hpne']
      have hmem : npMin (hitP S st.p (draws st.k) false).possible ∈
          newPossible st.p.ptype st.p.possible (S.value.getD (draws st.k) []) := by
        have h := npMin_mem hpne'
        rw [hitP_possible, List.mem_dedup] at h
        exact h
      obtain ⟨w1, hw1, w2, hw2, hc, heq⟩ := mem_newPossible.mp hmem
      have hcap : npMin (hitP S st.p (draws st.k) false).possible ≤ 22 := by
        have hcb := check_bust_iff.mp hc
        rw [heq]
        by_cases hd : st.p.ptype = PType.dealer
        · rw [if_pos hd] at hcb
          omega
        · rw [if_neg hd] at hcb
          omega
      have hlow : npMin st.p.possible + 1 ≤
          npMin (hitP S st.p (draws st.k) false).possible := by
        have h1 : npMin st.p.possible ≤ w1 := npMin_le hw1
        have h2 : 1 ≤ w2 := getD_faces hfv (draws st.k) w2 hw2
        omega
      rw [hmst, hmb]
      omega
    · rw [loopBody_S ha] at hgb
      simp [loopGuard] at hgb
    · rw [loopBody_D ha] at hgb
      have hact : (hitP S st.p (draws st.k) true).active = false := by
        rw [hitP_active]
        rfl
      simp [loopGuard, hact] at hgb

lemma loopIter_done (S : Settings) (strat : Bool → Int → String) (draws : Nat → Nat)
    (hs : ∀ b v, strat b v = "H" ∨ strat b v = "S" ∨ strat b v = "D")
    (hfv : ∀ vs ∈ S.value, ∀ v ∈ vs, 1 ≤ v) :
    ∀ n (st : LoopState), loopMeasure st ≤ n →
      loopGuard (loopIter S strat draws n st) = false := by
  intro n
  induction n with
  | zero =>
      intro st h
      rcases Bool.eq_false_or_eq_true (loopGuard st) with hg | hg
      · have := loopMeasure_pos hg
        omega
      · simpa [loopIter] using hg
  | succ n ih =>
      intro st h
      rcases Bool.eq_false_or_eq_true (loopGuard st) with hg | hg
      · rw [show loopIter S strat draws (n + 1) st =
            loopIter S strat draws n (loopBody S strat draws st) by simp [loopIter, hg]]
        apply ih
        have := loopMeasure_decreases S strat draws hs hfv st hg
        omega
      · simpa [loopIter, hg] using hg

/-- C8: whenever every strategy lookup yields one of the actions `H`, `S`,
`D`, and every candidate face value is at least 1, the `play_strategy`
loop reaches a state failing its guard after finitely many iterations:
each hit strictly raises every surviving possible total (which
`check_bust` caps), so the hand busts or stands, or a double clears
`active`. -/
theorem play_strategy_terminates (S : Settings) (strat : Bool → Int → String)
    (draws : Nat → Nat) (p : Participant) (num_cards : List Int) (count : Int)
    (hs : ∀ b v, strat b v = "H" ∨ strat b v = "S" ∨ strat b v = "D")
    (hfv : ∀ vs ∈ S.value, ∀ v ∈ vs, 1 ≤ v) :
    ∃ n, loopGuard (play_strategy S strat draws n p num_cards count) = false := by
  refine ⟨loopMeasure ⟨"", p, num_cards, count, 0⟩, ?_⟩
  unfold play_strategy
  exact loopIter_done S strat draws hs hfv _ _ le_rfl

/-- Witness for `play_strategy_terminates` with an always-stand strategy. -/
theorem play_strategy_terminates_witness :
    ∃ n, loopGuard
      (play_strategy S0 (fun _ _ => "S") (fun _ => 0) n p0 [2, 3] 0) = false :=
  play_strategy_terminates S0 (fun _ _ => "S") (fun _ => 0) p0 [2, 3] 0
    (fun _ _ => Or.inr (Or.inl rfl)) (by decide)

lemma lookupS_append_left {σ : Store} {r : Nat} (hr : r < σ.length) (l : List Int) :
    lookupS (σ ++ [l]) r = lookupS σ r := by
  unfold lookupS
  rw [List.getD_eq_getElem?_getD, List.getD_eq_getElem?_getD,
    List.getElem?_append_left hr]

lemma lookupS_set_ne {σ : Store} {i r : Nat} (h : i ≠ r) (l : List Int) :
    lookupS (σ.set i l) r = lookupS σ r := by
  unfold lookupS
  rw [List.getD_eq_getElem?_getD, List.getD_eq_getElem?_getD, List.getElem?_set_ne h]

lemma lookupS_append_self (σ : Store) (l : List Int) :
    lookupS (σ ++ [l]) σ.length = l := by
  unfold lookupS
  rw [List.getD_eq_getElem?_getD, List.getElem?_concat_length]
  rfl

lemma lookupS_set_self {σ : Store} {j : Nat} (h : j < σ.length) (l : List Int) :
    lookupS (σ.set j l) j = l := by
  unfold lookupS
  rw [List.getD_eq_getElem?_getD, List.getElem?_set_eq_of_lt l h]
  rfl

lemma hitS_store_preserved (S : Settings) (p : Participant) (σ : Store) (rr : Nat)
    (cnt : Int) (i : Nat) (dbl : Bool) {r : Nat} (hr : r < σ.length) :
    lookupS (hitS S p σ rr cnt i dbl).2.1 r = lookupS σ r := by
  show lookupS ((σ ++ [lookupS σ rr]).set σ.length
      ((lookupS (σ ++ [lookupS σ rr]) σ.length).set i
        ((lookupS (σ ++ [lookupS σ rr]) σ.length).getD i 0 - 1))) r = lookupS σ r
  rw [lookupS_set_ne (by omega), lookupS_append_left hr]

lemma hitS_store_length (S : Settings) (p : Participant) (σ : Store) (rr : Nat)
    (cnt : Int) (i : Nat) (dbl : Bool) :
    (hitS S p σ rr cnt i dbl).2.1.length = σ.length + 1 := by
  show ((σ ++ [lookupS σ rr]).set σ.length _).length = σ.length + 1
  rw [List.length_set, List.length_append]
  rfl

lemma hitS_returned_content (S : Settings) (p : Participant) (σ : Store) (r : Nat)
    (cnt : Int) (i : Nat) (dbl : Bool) :
    lookupS (hitS S p σ r cnt i dbl).2.1 (hitS S p σ r cnt i dbl).2.2.1 =
      (hit S p (lookupS σ r) cnt i dbl).2.1 := by
  show lookupS ((σ ++ [lookupS σ r]).set σ.length
      ((lookupS (σ ++ [lookupS σ r]) σ.length).set i
        ((lookupS (σ ++ [lookupS σ r]) σ.length).getD i 0 - 1))) σ.length =
    (lookupS σ r).set i ((lookupS σ r).getD i 0 - 1)
  rw [lookupS_set_self (by simp), lookupS_append_self]

lemma loopBodyS_preserved (S : Settings) (strat : Bool → Int → String)
    (draws : Nat → Nat) (st : SLoopState) (r : Nat) (hr : r < st.σ.length) :
    lookupS (loopBodyS S strat draws st).σ r = lookupS st.σ r ∧
    r < (loopBodyS S strat draws st).σ.length := by
  unfold loopBodyS
  dsimp only
  by_cases h1 : (strat (decide (1 < st.p.possible.length)) st.p.value == "H") = true
  · rw [if_pos h1]
    dsimp only
    refine ⟨hitS_store_preserved S st.p st.σ st.ref st.cnt (draws st.k) false hr, ?_⟩
    rw [hitS_store_length]
    omega
  · rw [if_neg h1]
    by_cases h2 : (strat (decide (1 < st.p.possible.length)) st.p.value == "D") = true
    · rw [if_pos h2]
      dsimp only
      refine ⟨hitS_store_preserved S st.p st.σ st.ref st.cnt (draws st.k) true hr, ?_⟩
      rw [hitS_store_length]
      omega
    · rw [if_neg h2]
      exact ⟨rfl, hr⟩

lemma loopIterS_preserved (S : Settings) (strat : Bool → Int → String)
    (draws : Nat → Nat) :
    ∀ n (st : SLoopState) (r : Nat), r < st.σ.length →
      lookupS (loopIterS S strat draws n st).σ r = lookupS st.σ r := by
  intro n
  induction n with
  | zero => intro st r hr; rfl
  | succ n ih =>
      intro st r hr
      simp only [loopIterS]
      by_cases hg : (!(st.act == "S") && !st.p.bust && st.p.active) = true
      · rw [if_pos hg]
        obtain ⟨h1, h2⟩ := loopBodyS_preserved S strat draws st r hr
        rw [ih _ r h2, h1]
      · rw [if_neg hg]

/-- C10: `hit` never mutates the caller's `num_cards` list: on the heap
model the decrement is applied to the freshly allocated `num_cards.copy()`
cell, the fresh reference (distinct from the caller's) carries exactly the
functionally updated counts of the returned tuple, and `play_strategy`
likewise leaves the caller's list unchanged for any number of loop
iterations. -/
theorem hit_no_mutation (S : Settings) (p : Participant) (σ : Store) (r rr : Nat)
    (cnt : Int) (i : Nat) (dbl : Bool) (strat : Bool → Int → String)
    (draws : Nat → Nat) (fuel : Nat) (hr : r < σ.length) :
    lookupS (hitS S p σ rr cnt i dbl).2.1 r = lookupS σ r ∧
    (hitS S p σ rr cnt i dbl).2.2.1 ≠ r ∧
    lookupS (hitS S p σ r cnt i dbl).2.1 (hitS S p σ r cnt i dbl).2.2.1 =
      (hit S p (lookupS σ r) cnt i dbl).2.1 ∧
    lookupS (play_strategyS S strat draws fuel p σ r cnt).σ r = lookupS σ r := by
  refine ⟨hitS_store_preserved S p σ rr cnt i dbl hr, ?_,
    hitS_returned_content S p σ r cnt i dbl, ?_⟩
  · show σ.length ≠ r
    omega
  · unfold play_strategyS
    have hr1 : r < (σ ++ [lookupS σ r]).length := by
      rw [List.length_append]
      omega
    rw [loopIterS_preserved S strat draws fuel
      ⟨"", p, σ ++ [lookupS σ r], σ.length, cnt, 0⟩ r hr1]
    exact lookupS_append_left hr _

/-- Witness for `hit_no_mutation` at a concrete two-cell store. -/
theorem hit_no_mutation_witness :
    lookupS (hitS S0 p0 [[3, 3], [5]] 0 7 0 false).2.1 0 = lookupS [[3, 3], [5]] 0 ∧
    (hitS S0 p0 [[3, 3], [5]] 0 7 0 false).2.2.1 ≠ 0 ∧
    lookupS (hitS S0 p0 [[3, 3], [5]] 0 7 0 false).2.1
        (hitS S0 p0 [[3, 3], [5]] 0 7 0 false).2.2.1 =
      (hit S0 p0 (lookupS [[3, 3], [5]] 0) 7 0 false).2.1 ∧
    lookupS (play_strategyS S0 (fun _ _ => "S") (fun _ => 0) 2 p0
        [[3, 3], [5]] 0 7).σ 0 = lookupS [[3, 3], [5]] 0 :=
  hit_no_mutation S0 p0 [[3, 3], [5]] 0 0 7 0 false (fun _ _ => "S") (fun _ => 0) 2
    (by decide)
